import Mathlib

/-!
Verification of the SHA3-256 hash module (`Crypto/Hash/SHA3_256.py`).

The Python file under verification is a thin wrapper around a native Keccak
library (`keccak_init`, `keccak_absorb`, `keccak_digest`, `keccak_copy`),
whose C sources are not part of the repository snapshot; only their C
prototypes and the Python callers are.  Following the specification, the
missing native core is modelled here from the spec (Keccak-f[1600],
rate 136 bytes, domain-separation byte 0x06, digest 32 bytes), and the
Python wrapper is embedded faithfully on top of it.  Python objects holding
mutable native state are modelled by a small heap: a list of Keccak states,
with object handles as indices into it.
-/

namespace Keccak

/-- Two to the 64: lane values are 64-bit words, kept as `Nat` below this bound. -/
def W : Nat := 2 ^ 64

/-- 64-bit rotate left by `n` bits (`0 ≤ n < 64`). -/
def rotl (x n : Nat) : Nat := ((x <<< n) ||| (x >>> (64 - n))) % W

/-- Lane of the 5×5 state at column `x`, row `y` (index `x + 5y`, coordinates mod 5). -/
def lane (A : List Nat) (x y : Nat) : Nat := A.getD (x % 5 + 5 * (y % 5)) 0

/-- Modelled from the spec: the theta step of Keccak-f[1600] — every lane is
XORed with the parity of two neighboring columns, one of them rotated. -/
def theta (A : List Nat) : List Nat :=
  let C := fun x => lane A x 0 ^^^ lane A x 1 ^^^ lane A x 2 ^^^ lane A x 3 ^^^ lane A x 4
  let D := fun x => C ((x + 4) % 5) ^^^ rotl (C ((x + 1) % 5)) 1
  (List.range 25).map (fun j => A.getD j 0 ^^^ D (j % 5))

/-- The fixed 5×5 table of rotation offsets for the rho step, row by row
(row `y` lists the offsets for `x = 0..4`); flattened, index `x + 5y`. -/
def rhoOffsets : List Nat :=
  [[0, 1, 62, 28, 27],
   [36, 44, 6, 55, 20],
   [3, 10, 43, 25, 39],
   [41, 45, 15, 21, 8],
   [18, 2, 61, 56, 14]].flatten

/-- Modelled from the spec: the rho and pi steps of Keccak-f[1600] — each lane
is rotated by its fixed offset and moved to position `(y, 2x+3y)`.  The output
lane at `(X, Y)` therefore comes from `(3Y + X mod 5, X)`. -/
def rhoPi (A : List Nat) : List Nat :=
  (List.range 25).map (fun j =>
    let X := j % 5
    let Y := j / 5
    let x := (3 * Y + X) % 5
    let y := X
    rotl (A.getD (x + 5 * y) 0) (rhoOffsets.getD (x + 5 * y) 0))

/-- Modelled from the spec: the chi step of Keccak-f[1600] — each lane is XORed
with the AND of the complement of one row neighbor and the next, per 5-lane row. -/
def chi (B : List Nat) : List Nat :=
  (List.range 25).map (fun j =>
    let x := j % 5
    let y := j / 5
    B.getD j 0 ^^^ ((B.getD ((x + 1) % 5 + 5 * y) 0 ^^^ (W - 1)) &&& B.getD ((x + 2) % 5 + 5 * y) 0))

/-- The fixed 24-entry table of round constants for the iota step. -/
def roundConstants : List Nat :=
  [1, 32898, 9223372036854808714,
   9223372039002292224, 32907, 2147483649,
   9223372039002292353, 9223372036854808585, 138,
   136, 2147516425, 2147483658,
   2147516555, 9223372036854775947, 9223372036854808713,
   9223372036854808579, 9223372036854808578, 9223372036854775936,
   32778, 9223372039002259466, 9223372039002292353,
   9223372036854808704, 2147483649, 9223372039002292232]

/-- Modelled from the spec: the iota step — lane (0,0) is XORed with the round constant. -/
def iotaStep (A : List Nat) (i : Nat) : List Nat :=
  A.set 0 (A.getD 0 0 ^^^ roundConstants.getD i 0)

/-- One round of Keccak-f[1600]: theta, rho, pi, chi, iota in fixed order. -/
def keccakRound (A : List Nat) (i : Nat) : List Nat := iotaStep (chi (rhoPi (theta A))) i

/-- Modelled from the spec: the full Keccak-f[1600] permutation, 24 rounds. -/
def keccakF (A : List Nat) : List Nat := (List.range 24).foldl keccakRound A

/-- Rate of SHA3-256 in bytes: 136 (1088 bits). -/
def rateBytes : Nat := 136

/-- A sponge-controller state: 25 lanes plus the absorb cursor (bytes of the
current block already absorbed). -/
structure KState where
  lanes : List Nat
  cursor : Nat
deriving DecidableEq

/-- Modelled from the spec: `keccak_init` — the zero-initialized state, cursor 0. -/
def keccakInit : KState := ⟨List.replicate 25 0, 0⟩

/-- XOR the byte `b` into the state at byte position `pos` (lane `pos / 8`,
little-endian byte order within each lane). -/
def xorByteAt (lanes : List Nat) (pos b : Nat) : List Nat :=
  lanes.set (pos / 8) (lanes.getD (pos / 8) 0 ^^^ (b <<< (8 * (pos % 8))))

/-- Modelled from the spec: absorb one byte — XOR at the cursor, increment, and
when the block of 136 bytes completes, permute and reset the cursor to 0. -/
def absorbByte (s : KState) (b : Nat) : KState :=
  let lanes := xorByteAt s.lanes s.cursor b
  if s.cursor + 1 = rateBytes then ⟨keccakF lanes, 0⟩ else ⟨lanes, s.cursor + 1⟩

/-- Modelled from the spec: `keccak_absorb` — absorb a byte sequence, byte by byte. -/
def keccakAbsorb (s : KState) (data : List Nat) : KState := data.foldl absorbByte s

/-- Modelled from the spec: `keccak_digest` (its C prototype takes the state as
`const`) — on a disposable copy of the state: XOR the domain-separation byte
0x06 at the cursor, XOR 0x80 into the last byte of the rate portion, permute
once, and read the first 32 bytes of the state, little-endian per lane. -/
def keccakDigest (s : KState) : List Nat :=
  let l1 := xorByteAt s.lanes s.cursor 0x06
  let l2 := xorByteAt l1 (rateBytes - 1) 0x80
  let l3 := keccakF l2
  (List.range 32).map (fun i => (l3.getD (i / 8) 0 >>> (8 * (i % 8))) % 256)

end Keccak

namespace SHA3Mod

open Keccak

/-- A Python value passed to `update`: either a byte string or some
non-byte-sequence value. -/
inductive PyBuf where
  | bytes : List Nat → PyBuf
  | nonBytes : PyBuf
deriving DecidableEq

/-- The heap of native Keccak states; a hash object's `_state` smart pointer is
a handle, i.e. an index into this list. -/
structure Heap where
  cells : List KState
deriving DecidableEq

/-- Read the state a handle points to. -/
def Heap.read (hp : Heap) (a : Nat) : KState := hp.cells.getD a keccakInit

/-- Overwrite the state a handle points to. -/
def Heap.write (hp : Heap) (a : Nat) (s : KState) : Heap := ⟨hp.cells.set a s⟩

/-- Allocate a fresh cell holding `s`; returns the new heap and the fresh handle. -/
def Heap.alloc (hp : Heap) (s : KState) : Heap × Nat :=
  (⟨hp.cells ++ [s]⟩, hp.cells.length)

/-- `SHA3_256_Hash.digest_size`: the size of the resulting hash in bytes. -/
def digest_size : Nat := 32

/-- `SHA3_256_Hash.oid`: ASN.1 Object ID. -/
def oid : String := "2.16.840.1.101.3.4.2.8"

/-- Modelled from the spec: `expect_byte_string` (from `Crypto.Util._raw_api`,
not under src/) — reject a non-byte-sequence argument at the boundary. -/
def expect_byte_string (v : PyBuf) : Except String Unit :=
  match v with
  | .bytes _ => Except.ok ()
  | .nonBytes => Except.error "byte string expected"

/-- `SHA3_256_Hash.update`: check the argument with `expect_byte_string`, then
call `keccak_absorb` on the object's native state. -/
def update (hp : Heap) (a : Nat) (v : PyBuf) : Except String Heap :=
  match expect_byte_string v with
  | .error e => Except.error e
  | .ok () =>
    match v with
    | .bytes d => Except.ok (hp.write a (keccakAbsorb (hp.read a) d))
    | .nonBytes => Except.error "byte string expected"

/-- `update` specialised to byte-string arguments (the success path). -/
def updateBytes (hp : Heap) (a : Nat) (d : List Nat) : Heap :=
  hp.write a (keccakAbsorb (hp.read a) d)

/-- `SHA3_256_Hash.__init__`: allocate a fresh zero-initialized native state
(`keccak_init` with digest size 32 and padding byte 0x06); if `data` is truthy
(present and non-empty), absorb it via `update`. -/
def hashInit (hp : Heap) (data : Option (List Nat)) : Heap × Nat :=
  match hp.alloc keccakInit with
  | (hp1, a) =>
    match data with
    | none => (hp1, a)
    | some d => if d.isEmpty then (hp1, a) else (updateBytes hp1 a d, a)

/-- `SHA3_256_Hash.digest`: call `keccak_digest` on the object's state (the C
prototype takes the state pointer as `const`) and return the 32 digest bytes;
the heap is returned to express that the call leaves every object unchanged. -/
def digest (hp : Heap) (a : Nat) : List Nat × Heap :=
  (keccakDigest (hp.read a), hp)

/-- One lowercase hexadecimal digit. -/
def hexDigit (n : Nat) : Char :=
  if n < 10 then Char.ofNat (48 + n) else Char.ofNat (87 + n)

/-- `"%02x" % b` for a byte `b < 256`: exactly two lowercase hex digits. -/
def byteHex (b : Nat) : List Char := [hexDigit (b / 16), hexDigit (b % 16)]

/-- `SHA3_256_Hash.hexdigest`: join the `"%02x"` formatting of every byte of
`digest()`, in array order. -/
def hexdigest (hp : Heap) (a : Nat) : String × Heap :=
  (String.mk (((digest hp a).1.map byteHex).flatten), hp)

/-- `SHA3_256_Hash.copy`: construct a fresh hash object (`type(self)()`), then
`keccak_copy` the source's native state into the clone's cell. -/
def copy (hp : Heap) (a : Nat) : Heap × Nat :=
  match hashInit hp none with
  | (hp1, b) => (hp1.write b (hp1.read a), b)

/-- The module-level `new` function: just the constructor. -/
def new (hp : Heap) (data : Option (List Nat)) : Heap × Nat := hashInit hp data

/-- The instance method `SHA3_256_Hash.new`: `return type(self)(data=data)` —
the constructor again, with the receiver `self` ignored. -/
def newMethod (hp : Heap) (_self : Nat) (data : Option (List Nat)) : Heap × Nat :=
  hashInit hp data

/-- States reachable by a sponge controller: the zero-initialized state, closed
under absorbing byte sequences. -/
inductive Reachable : KState → Prop where
  | init : Reachable keccakInit
  | absorb (s : KState) (d : List Nat) : Reachable s → Reachable (keccakAbsorb s d)

end SHA3Mod

namespace SHA3Mod

open Keccak

/-- Is this Python value a byte string?  (`expect_byte_string` succeeds iff so.) -/
def PyBuf.isBytes : PyBuf → Bool
  | .bytes _ => true
  | .nonBytes => false

theorem Heap.length_write (hp : Heap) (a : Nat) (s : KState) :
    (hp.write a s).cells.length = hp.cells.length := by
  simp [Heap.write]

theorem Heap.read_write_self (hp : Heap) (a : Nat) (s : KState) (h : a < hp.cells.length) :
    (hp.write a s).read a = s := by
  simp [Heap.read, Heap.write, List.getD_eq_getElem?_getD, List.getElem?_set_self h]

theorem Heap.read_write_ne (hp : Heap) (a b : Nat) (s : KState) (h : a ≠ b) :
    (hp.write a s).read b = hp.read b := by
  simp [Heap.read, Heap.write, List.getD_eq_getElem?_getD, List.getElem?_set_ne h]

theorem Heap.read_alloc_old (hp : Heap) (s : KState) (i : Nat) (h : i < hp.cells.length) :
    (hp.alloc s).1.read i = hp.read i := by
  simp [Heap.read, Heap.alloc, List.getD_eq_getElem?_getD, List.getElem?_append_left h]

theorem Heap.read_alloc_fresh (hp : Heap) (s : KState) :
    (hp.alloc s).1.read (hp.alloc s).2 = s := by
  simp [Heap.read, Heap.alloc, List.getD_eq_getElem?_getD, List.getElem?_concat_length]

theorem List.set_getD_of_lt {α : Type} (l : List α) (a : Nat) (d : α) (h : a < l.length) :
    l.set a (l.getD a d) = l := by
  apply List.ext_getElem?
  intro i
  rcases eq_or_ne i a with rfl | hne
  · rw [List.getElem?_set_self h, List.getD_eq_getElem?_getD, List.getElem?_eq_getElem h]
    rfl
  · rw [List.getElem?_set_ne (Ne.symm hne)]

theorem Heap.write_read_self (hp : Heap) (a : Nat) (h : a < hp.cells.length) :
    hp.write a (hp.read a) = hp := by
  cases hp with
  | mk cells =>
    show Heap.mk (cells.set a (cells.getD a keccakInit)) = Heap.mk cells
    rw [List.set_getD_of_lt cells a keccakInit h]

theorem keccakAbsorb_nil (s : KState) : keccakAbsorb s [] = s := rfl

theorem keccakAbsorb_append (s : KState) (d1 d2 : List Nat) :
    keccakAbsorb (keccakAbsorb s d1) d2 = keccakAbsorb s (d1 ++ d2) :=
  (List.foldl_append ..).symm

theorem update_bytes_ok (hp : Heap) (a : Nat) (d : List Nat) :
    update hp a (PyBuf.bytes d) = Except.ok (updateBytes hp a d) := rfl

end SHA3Mod

namespace SHA3Mod

open Keccak

theorem cursor_keccakAbsorb (d : List Nat) (s : KState) (h : s.cursor < 136) :
    (keccakAbsorb s d).cursor = (s.cursor + d.length) % 136 := by
  induction d generalizing s with
  | nil => simp [keccakAbsorb, Nat.mod_eq_of_lt h]
  | cons b t ih =>
    show (keccakAbsorb (absorbByte s b) t).cursor = (s.cursor + (t.length + 1)) % 136
    by_cases hc : s.cursor + 1 = rateBytes
    · have h1 : (absorbByte s b).cursor = 0 := by
        simp [absorbByte, hc]
      rw [ih (absorbByte s b) (by omega), h1]
      have hc136 : s.cursor = 135 := by
        simpa [rateBytes] using hc
      omega
    · have h1 : (absorbByte s b).cursor = s.cursor + 1 := by
        simp [absorbByte, hc]
      have h2 : s.cursor + 1 < 136 := by
        simp [rateBytes] at hc
        omega
      rw [ih (absorbByte s b) (by omega), h1]
      omega

theorem cursor_lt_keccakAbsorb (d : List Nat) (s : KState) (h : s.cursor < 136) :
    (keccakAbsorb s d).cursor < 136 := by
  rw [cursor_keccakAbsorb d s h]
  omega

theorem cursor_lt_of_reachable (s : KState) (h : Reachable s) : s.cursor < 136 := by
  induction h with
  | init => simp [keccakInit]
  | absorb s d _ ih => exact cursor_lt_keccakAbsorb d s ih

theorem length_keccakDigest (s : KState) : (keccakDigest s).length = 32 := by
  simp [keccakDigest]

theorem keccakDigest_bytes_lt (s : KState) : ∀ x ∈ keccakDigest s, x < 256 := by
  intro x hx
  simp only [keccakDigest, List.mem_map] at hx
  obtain ⟨i, _, rfl⟩ := hx
  exact Nat.mod_lt _ (by omega)

/-- The sixteen lowercase hexadecimal digits. -/
def hexAlphabet : List Char := "0123456789abcdef".data

theorem hexDigit_mem (n : Nat) (h : n < 16) : hexDigit n ∈ hexAlphabet := by
  interval_cases n <;> decide

theorem length_flatten_byteHex (l : List Nat) :
    ((l.map byteHex).flatten).length = 2 * l.length := by
  induction l with
  | nil => rfl
  | cons b t ih =>
    simp only [List.map_cons, List.flatten_cons, List.length_append, ih, byteHex,
      List.length_cons, List.length_nil]
    omega

end SHA3Mod

namespace SHA3Mod

open Keccak

set_option maxRecDepth 100000 in
/-- C1: for a freshly constructed hash object with no bytes ever absorbed,
`digest()` returns the fixed NIST-published SHA3-256 value for the empty string
(32 bytes, byte-for-byte); for the input "abc" absorbed into a fresh object,
`digest()` returns the fixed published SHA3-256 value for "abc". -/
theorem C1_known_answer_vectors :
    (digest (new ⟨[]⟩ none).1 (new ⟨[]⟩ none).2).1 =
      [0xa7, 0xff, 0xc6, 0xf8, 0xbf, 0x1e, 0xd7, 0x66, 0x51, 0xc1, 0x47, 0x56,
       0xa0, 0x61, 0xd6, 0x62, 0xf5, 0x80, 0xff, 0x4d, 0xe4, 0x3b, 0x49, 0xfa,
       0x82, 0xd8, 0x0a, 0x4b, 0x80, 0xf8, 0x43, 0x4a]
    ∧ update (new ⟨[]⟩ none).1 (new ⟨[]⟩ none).2 (PyBuf.bytes [0x61, 0x62, 0x63]) =
        Except.ok (updateBytes (new ⟨[]⟩ none).1 (new ⟨[]⟩ none).2 [0x61, 0x62, 0x63])
    ∧ (digest (updateBytes (new ⟨[]⟩ none).1 (new ⟨[]⟩ none).2 [0x61, 0x62, 0x63])
        (new ⟨[]⟩ none).2).1 =
      [0x3a, 0x98, 0x5d, 0xa7, 0x4f, 0xe2, 0x25, 0xb2, 0x04, 0x5c, 0x17, 0x2d,
       0x6b, 0xd3, 0x90, 0xbd, 0x85, 0x5f, 0x08, 0x6e, 0x3e, 0x9d, 0x52, 0x5b,
       0x46, 0xbf, 0xe2, 0x45, 0x11, 0x43, 0x15, 0x32] :=
  ⟨by decide, rfl, by decide⟩

/-- C2: on a valid handle, `update(a)` then `update(b)` leaves the heap exactly
as `update(a+b)` does, and absorbing zero bytes is a no-op. -/
theorem C2_update_concatenation (hp : Heap) (a : Nat) (d1 d2 : List Nat)
    (h : a < hp.cells.length) :
    updateBytes (updateBytes hp a d1) a d2 = updateBytes hp a (d1 ++ d2)
    ∧ updateBytes hp a [] = hp := by
  constructor
  · show (updateBytes hp a d1).write a
        (keccakAbsorb ((updateBytes hp a d1).read a) d2) = _
    rw [show (updateBytes hp a d1).read a = keccakAbsorb (hp.read a) d1 from
        Heap.read_write_self hp a _ h]
    show Heap.mk ((hp.cells.set a _).set a _) = _
    rw [List.set_set, keccakAbsorb_append]
    rfl
  · show hp.write a (keccakAbsorb (hp.read a) []) = hp
    rw [keccakAbsorb_nil]
    exact Heap.write_read_self hp a h

/-- Witness for C2 at a concrete heap, handle and byte strings. -/
theorem C2_update_concatenation_witness :
    0 < (Heap.mk [keccakInit]).cells.length
    ∧ (updateBytes (updateBytes ⟨[keccakInit]⟩ 0 [1]) 0 [2] =
         updateBytes ⟨[keccakInit]⟩ 0 ([1] ++ [2])
       ∧ updateBytes ⟨[keccakInit]⟩ 0 [] = ⟨[keccakInit]⟩) :=
  ⟨by decide, C2_update_concatenation ⟨[keccakInit]⟩ 0 [1] [2] (by decide)⟩

/-- C3: `digest()` never mutates the ongoing absorption state: the heap after a
`digest()` call is unchanged, a second `digest()` returns the identical bytes,
and any later `update` behaves exactly as on an object that never called
`digest()`. -/
theorem C3_digest_pure (hp : Heap) (a : Nat) :
    (digest hp a).2 = hp
    ∧ (digest (digest hp a).2 a).1 = (digest hp a).1
    ∧ ∀ d, updateBytes (digest hp a).2 a d = updateBytes hp a d :=
  ⟨rfl, rfl, fun _ => rfl⟩

/-- C5: in every state, `digest()` returns a byte string of exactly 32 bytes. -/
theorem C5_digest_length (hp : Heap) (a : Nat) : ((digest hp a).1).length = 32 :=
  length_keccakDigest (hp.read a)

end SHA3Mod

namespace SHA3Mod

open Keccak

/-- C6: in every reachable state the absorb cursor satisfies `0 ≤ cursor < 136`;
absorbing `d` moves it to `(cursor + |d|) % 136` (so after any exact multiple of
136 bytes from a fresh state it is 0); each absorbed byte either increments the
cursor or, when the 136-byte block completes, applies the permutation and
resets the cursor to 0. -/
theorem C6_cursor_invariant (s : KState) (d : List Nat) (b : Nat) (h : Reachable s) :
    s.cursor < 136
    ∧ (keccakAbsorb s d).cursor = (s.cursor + d.length) % 136
    ∧ (s.cursor + 1 < 136 →
        absorbByte s b = ⟨xorByteAt s.lanes s.cursor b, s.cursor + 1⟩)
    ∧ (s.cursor + 1 = 136 →
        absorbByte s b = ⟨keccakF (xorByteAt s.lanes s.cursor b), 0⟩) := by
  have hlt : s.cursor < 136 := cursor_lt_of_reachable s h
  refine ⟨hlt, cursor_keccakAbsorb d s hlt, ?_, ?_⟩
  · intro hinc
    have : ¬(s.cursor + 1 = rateBytes) := by
      simp [rateBytes]
      omega
    simp [absorbByte, this]
  · intro hfull
    have : s.cursor + 1 = rateBytes := by
      simpa [rateBytes] using hfull
    simp [absorbByte, this]

/-- Witness for C6 at the fresh state, a concrete byte string and byte. -/
theorem C6_cursor_invariant_witness :
    keccakInit.cursor < 136
    ∧ (keccakAbsorb keccakInit [5]).cursor = (keccakInit.cursor + [5].length) % 136
    ∧ (keccakInit.cursor + 1 < 136 →
        absorbByte keccakInit 7 = ⟨xorByteAt keccakInit.lanes keccakInit.cursor 7,
          keccakInit.cursor + 1⟩)
    ∧ (keccakInit.cursor + 1 = 136 →
        absorbByte keccakInit 7 = ⟨keccakF (xorByteAt keccakInit.lanes keccakInit.cursor 7), 0⟩) :=
  C6_cursor_invariant keccakInit [5] 7 Reachable.init

/-- C7: `update` rejects a non-byte-sequence argument at the boundary: the call
reports an error, no heap is produced (so the object's state, and every
subsequent `digest()`, is as if the call had never been made), and the
rejection does not depend on the heap or the handle. -/
theorem C7_update_rejects_non_bytes (hp hp2 : Heap) (a a2 : Nat) (v : PyBuf)
    (h : v.isBytes = false) :
    update hp a v = Except.error "byte string expected"
    ∧ update hp2 a2 v = update hp a v := by
  cases v with
  | bytes d => simp [PyBuf.isBytes] at h
  | nonBytes => exact ⟨rfl, rfl⟩

/-- Witness for C7 at concrete heaps, handles and a non-byte-sequence value. -/
theorem C7_update_rejects_non_bytes_witness :
    PyBuf.isBytes PyBuf.nonBytes = false
    ∧ (update ⟨[keccakInit]⟩ 0 PyBuf.nonBytes = Except.error "byte string expected"
       ∧ update ⟨[]⟩ 3 PyBuf.nonBytes = update ⟨[keccakInit]⟩ 0 PyBuf.nonBytes) :=
  ⟨by decide, C7_update_rejects_non_bytes ⟨[keccakInit]⟩ ⟨[]⟩ 0 3 PyBuf.nonBytes (by decide)⟩

end SHA3Mod

namespace SHA3Mod

open Keccak

/-- C4: for a hash object on a valid handle, `copy()` yields a fresh object with
the same digest, on a distinct cell; updating either object afterwards never
changes the digest of the other. -/
theorem C4_copy_independence (hp : Heap) (a : Nat) (d : List Nat)
    (h : a < hp.cells.length) :
    (digest (copy hp a).1 (copy hp a).2).1 = (digest hp a).1
    ∧ (digest (copy hp a).1 a).1 = (digest hp a).1
    ∧ (copy hp a).2 ≠ a
    ∧ (digest (updateBytes (copy hp a).1 a d) (copy hp a).2).1 =
        (digest (copy hp a).1 (copy hp a).2).1
    ∧ (digest (updateBytes (copy hp a).1 (copy hp a).2 d) a).1 =
        (digest (copy hp a).1 a).1 := by
  have hcopy : copy hp a =
      ((hp.alloc keccakInit).1.write hp.cells.length ((hp.alloc keccakInit).1.read a),
       hp.cells.length) := rfl
  have hAlen : ((hp.alloc keccakInit).1).cells.length = hp.cells.length + 1 := by
    simp [Heap.alloc]
  have hna : hp.cells.length ≠ a := by omega
  have hreadA : (hp.alloc keccakInit).1.read a = hp.read a :=
    Heap.read_alloc_old hp keccakInit a h
  have hr1 : ((hp.alloc keccakInit).1.write hp.cells.length
        ((hp.alloc keccakInit).1.read a)).read hp.cells.length =
      (hp.alloc keccakInit).1.read a :=
    Heap.read_write_self _ _ _ (by omega)
  have hr2 : ((hp.alloc keccakInit).1.write hp.cells.length
        ((hp.alloc keccakInit).1.read a)).read a = (hp.alloc keccakInit).1.read a :=
    Heap.read_write_ne _ _ _ _ hna
  have hW : ((hp.alloc keccakInit).1.write hp.cells.length
        ((hp.alloc keccakInit).1.read a)).cells.length = hp.cells.length + 1 := by
    rw [Heap.length_write, hAlen]
  simp only [hcopy, digest, updateBytes]
  refine ⟨by rw [hr1, hreadA], by rw [hr2, hreadA], hna, ?_, ?_⟩
  · rw [Heap.read_write_ne _ a hp.cells.length _ (Ne.symm hna)]
  · rw [Heap.read_write_ne _ hp.cells.length a _ hna]

/-- Witness for C4 at a concrete heap, handle and byte string. -/
theorem C4_copy_independence_witness :
    0 < (Heap.mk [keccakInit]).cells.length
    ∧ ((digest (copy ⟨[keccakInit]⟩ 0).1 (copy ⟨[keccakInit]⟩ 0).2).1 =
         (digest ⟨[keccakInit]⟩ 0).1
       ∧ (digest (copy ⟨[keccakInit]⟩ 0).1 0).1 = (digest ⟨[keccakInit]⟩ 0).1
       ∧ (copy ⟨[keccakInit]⟩ 0).2 ≠ 0
       ∧ (digest (updateBytes (copy ⟨[keccakInit]⟩ 0).1 0 [9]) (copy ⟨[keccakInit]⟩ 0).2).1 =
           (digest (copy ⟨[keccakInit]⟩ 0).1 (copy ⟨[keccakInit]⟩ 0).2).1
       ∧ (digest (updateBytes (copy ⟨[keccakInit]⟩ 0).1 (copy ⟨[keccakInit]⟩ 0).2 [9]) 0).1 =
           (digest (copy ⟨[keccakInit]⟩ 0).1 0).1) :=
  ⟨by decide, C4_copy_independence ⟨[keccakInit]⟩ 0 [9] (by decide)⟩

/-- C8: `hexdigest()` is exactly the hexadecimal formatting of `digest()`: the
join of the two-lowercase-hex-digit rendering of each byte in array order, 64
characters in all, and it does not change the hash state. -/
theorem C8_hexdigest_formatting (hp : Heap) (a : Nat) :
    (hexdigest hp a).1 = String.mk (((digest hp a).1.map byteHex).flatten)
    ∧ ((hexdigest hp a).1).length = 64
    ∧ (hexdigest hp a).2 = hp
    ∧ ∀ c ∈ ((hexdigest hp a).1).data, c ∈ hexAlphabet := by
  refine ⟨rfl, ?_, rfl, ?_⟩
  · show (String.mk _).length = 64
    have hlen : ((((digest hp a).1).map byteHex).flatten).length = 2 * 32 := by
      rw [length_flatten_byteHex, C5_digest_length hp a]
    simpa [String.length] using hlen
  · intro c hc
    have hc2 : c ∈ (((digest hp a).1).map byteHex).flatten := hc
    rw [List.mem_flatten] at hc2
    obtain ⟨l, hl, hcl⟩ := hc2
    rw [List.mem_map] at hl
    obtain ⟨b, hb, rfl⟩ := hl
    have hblt : b < 256 := keccakDigest_bytes_lt (hp.read a) b hb
    simp only [byteHex, List.mem_cons, List.not_mem_nil, or_false] at hcl
    rcases hcl with rfl | rfl
    · exact hexDigit_mem _ ((Nat.div_lt_iff_lt_mul (by omega)).mpr (by omega))
    · exact hexDigit_mem _ (Nat.mod_lt _ (by omega))

end SHA3Mod

namespace SHA3Mod

open Keccak

/-- C9: the instance method `h.new(data)` is redundant with the constructor: it
returns exactly what the module-level `new(data)` returns, the returned handle
is a fresh cell, the receiver's (and every existing object's) state is left
untouched, and the fresh object's state is the zero-initialized state with
`data` absorbed — independent of the receiver. -/
theorem C9_instance_new_redundant (hp : Heap) (self : Nat) (data : Option (List Nat))
    (i : Nat) (hi : i < hp.cells.length) :
    newMethod hp self data = new hp data
    ∧ (newMethod hp self data).2 = hp.cells.length
    ∧ (newMethod hp self data).1.read i = hp.read i
    ∧ (newMethod hp self data).1.read (newMethod hp self data).2 =
        keccakAbsorb keccakInit (data.getD []) := by
  refine ⟨rfl, ?_, ?_, ?_⟩
  · cases data with
    | none => rfl
    | some d => cases d with
      | nil => rfl
      | cons b t => rfl
  · have hne : hp.cells.length ≠ i := by omega
    cases data with
    | none => exact Heap.read_alloc_old hp keccakInit i hi
    | some d => cases d with
      | nil => exact Heap.read_alloc_old hp keccakInit i hi
      | cons b t =>
        show ((hp.alloc keccakInit).1.write hp.cells.length _).read i = _
        rw [Heap.read_write_ne _ _ _ _ hne]
        exact Heap.read_alloc_old hp keccakInit i hi
  · have hfresh : (hp.alloc keccakInit).1.read hp.cells.length = keccakInit :=
      Heap.read_alloc_fresh hp keccakInit
    have hlt : hp.cells.length < ((hp.alloc keccakInit).1).cells.length := by
      simp [Heap.alloc]
    cases data with
    | none =>
      show (hp.alloc keccakInit).1.read hp.cells.length = keccakAbsorb keccakInit []
      rw [keccakAbsorb_nil, hfresh]
    | some d => cases d with
      | nil =>
        show (hp.alloc keccakInit).1.read hp.cells.length = keccakAbsorb keccakInit []
        rw [keccakAbsorb_nil, hfresh]
      | cons b t =>
        show ((hp.alloc keccakInit).1.write hp.cells.length
            (keccakAbsorb ((hp.alloc keccakInit).1.read hp.cells.length) (b :: t))).read
            hp.cells.length = keccakAbsorb keccakInit (b :: t)
        rw [Heap.read_write_self _ _ _ hlt, hfresh]

/-- Witness for C9 at a concrete heap, receiver, initial data and cell index. -/
theorem C9_instance_new_redundant_witness :
    0 < (Heap.mk [keccakInit]).cells.length
    ∧ (newMethod ⟨[keccakInit]⟩ 0 (some [1]) = new ⟨[keccakInit]⟩ (some [1])
       ∧ (newMethod ⟨[keccakInit]⟩ 0 (some [1])).2 = (Heap.mk [keccakInit]).cells.length
       ∧ (newMethod ⟨[keccakInit]⟩ 0 (some [1])).1.read 0 = (Heap.mk [keccakInit]).read 0
       ∧ (newMethod ⟨[keccakInit]⟩ 0 (some [1])).1.read (newMethod ⟨[keccakInit]⟩ 0 (some [1])).2 =
           keccakAbsorb keccakInit ((some [1]).getD [])) :=
  ⟨by decide, C9_instance_new_redundant ⟨[keccakInit]⟩ 0 (some [1]) 0 (by decide)⟩

/-- C10: constructing via `new(data)` equals `new()` followed by `update(data)`
for every byte string `data`, including the empty one; in particular, although
`__init__`'s truthiness test skips the `update` call when `data` is empty,
`new(b'')` and `new()` are identical. -/
theorem C10_constructor_update_equivalence (hp : Heap) (d : List Nat) :
    new hp (some d) = (updateBytes (new hp none).1 (new hp none).2 d, (new hp none).2)
    ∧ new hp (some []) = new hp none := by
  have hlt : hp.cells.length < ((hp.alloc keccakInit).1).cells.length := by
    simp [Heap.alloc]
  have hnilup : updateBytes (hp.alloc keccakInit).1 hp.cells.length [] =
      (hp.alloc keccakInit).1 := by
    show (hp.alloc keccakInit).1.write _ (keccakAbsorb ((hp.alloc keccakInit).1.read _) []) = _
    rw [keccakAbsorb_nil]
    exact Heap.write_read_self _ _ hlt
  constructor
  · cases d with
    | nil =>
      show ((hp.alloc keccakInit).1, hp.cells.length) =
        (updateBytes (hp.alloc keccakInit).1 hp.cells.length [], hp.cells.length)
      rw [hnilup]
    | cons b t => rfl
  · rfl

end SHA3Mod
